import Mathlib

/-!
Verification of the Channel Capacity Solver (`src/Duh1a.py`, function
`compute_channel`).

The Python core is embedded shallowly:

* floating-point arithmetic is idealised as real arithmetic (`ℝ`), with
  `math.sqrt` as `Real.sqrt`, `math.log10` as `Real.logb 10` and the float
  power `**` as `Real.rpow`;
* the `for _ in range(n)` loop with `break` becomes structural recursion on a
  fuel counter `n`; the mutable accumulator variables `b, bt, qth, rgt, czt`
  become explicit arguments, and the file sink `qfb.dat` becomes the returned
  list of `(b, qt)` samples, in emission order;
* the `raise ValueError` paths become `Except.error` with the source's
  message strings;
* the Python operations that can raise at run time (`math.sqrt` on a negative
  argument, `math.log10` on a non-positive argument, division by zero) are
  additionally modelled as `Option`-valued operations (`safeSqrt`, `safeDiv`,
  `safeLog10`) in a second, fault-sensitive copy of the evaluator and loop,
  used to state the no-domain-fault property.
-/

open Real

noncomputable section

namespace Duh1a

/-- One line of `qfb.dat`: the pair `(b, qt)` written at each loop step. -/
abbrev Sample := ℝ × ℝ

/-- The scalar inputs of `compute_channel(q, sl, mn, nb, h, jcz, b0, n, alh)`. -/
structure ChannelParameters where
  q : ℝ
  sl : ℝ
  mn : ℝ
  nb : ℝ
  h : ℝ
  jcz : ℤ
  b0 : ℝ
  n : ℕ
  alh : ℝ

/-- The per-step quantities computed inside the loop body:
wetted area `w`, hydraulic radius `rg`, Chezy coefficient `cz`, discharge `qt`. -/
structure StepEval where
  w : ℝ
  rg : ℝ
  cz : ℝ
  qt : ℝ

/-- The running-best accumulator `bt, qth, rgt, czt` of the loop. -/
structure Best where
  bt : ℝ
  qth : ℝ
  rgt : ℝ
  czt : ℝ

/-- The dict returned by `compute_channel`. -/
structure ResultRecord where
  bt : ℝ
  qth : ℝ
  rgt : ℝ
  czt : ℝ
  cr05 : ℝ

/-- Initial accumulator: `bt = qth = rgt = czt = 0.0`. -/
def best0 : Best := ⟨0, 0, 0, 0⟩

/-- One loop-body evaluation at bed width `b` (lines 33-52 of `Duh1a.py`):
geometry, Chezy coefficient by `jcz`, and discharge. -/
def evalStep (sl mn nb h : ℝ) (jcz : ℤ) (b : ℝ) : StepEval :=
  let w := (b + mn * h) * h
  let ksi0 := b + 2 * h * Real.sqrt (1 + mn ^ 2)
  let ksi := if ksi0 ≤ 0 then (1e-12 : ℝ) else ksi0
  let rg := w / ksi
  let cz :=
    if jcz = 0 then
      (1 / nb) * rg ^ (if rg ≥ 1 then 1.5 * Real.sqrt nb else 1.3 * Real.sqrt nb)
    else if jcz = 1 then
      (1 / nb) + 17.72 * Real.logb 10 (if rg > 1e-12 then rg else (1e-12 : ℝ))
    else
      (1 / nb) * rg ^ ((1 : ℝ) / 6)
  let rgsl := rg * sl
  let qt := w * cz * Real.sqrt (if rgsl > 0 then rgsl else 0)
  ⟨w, rg, cz, qt⟩

/-- The search loop (lines 32-68): at width `b`, evaluate, emit the sample
`(b, qt)`, update the running best when `qt ≤ q`, then either advance `b` by
`alh` (when `qt < 1.2 * q`) or break.  The fuel argument is the remaining
iteration budget of `for _ in range(n)`. -/
def channelLoop (q sl mn nb h : ℝ) (jcz : ℤ) (alh : ℝ) :
    ℕ → ℝ → Best → Best × List Sample
  | 0, _, best => (best, [])
  | fuel + 1, b, best =>
    let e := evalStep sl mn nb h jcz b
    let best1 := if e.qt ≤ q then Best.mk b e.qt e.rg e.cz else best
    if e.qt < 1.2 * q then
      let r := channelLoop q sl mn nb h jcz alh fuel (b + alh) best1
      (r.1, (b, e.qt) :: r.2)
    else
      (best1, [(b, e.qt)])

/-- The whole loop of a run: final accumulator plus the emitted samples. -/
def runState (p : ChannelParameters) : Best × List Sample :=
  channelLoop p.q p.sl p.mn p.nb p.h p.jcz p.alh p.n p.b0 best0

/-- The returned dict (lines 70-73): the four best fields plus
`cr05 = czt * sqrt(rgt if rgt > 0 else 0)`. -/
def mkResult (best : Best) : ResultRecord :=
  ⟨best.bt, best.qth, best.rgt, best.czt,
    best.czt * Real.sqrt (if best.rgt > 0 then best.rgt else 0)⟩

/-- `compute_channel` (lines 11-73): the four validation checks in source
order, then the search loop.  The error string is the `ValueError` message;
the `ok` payload is the returned dict together with the `qfb.dat` content. -/
def compute_channel (p : ChannelParameters) :
    Except String (ResultRecord × List Sample) :=
  if p.nb ≤ 0 then Except.error "Barzgarshilt (nb) must be > 0."
  else if p.h ≤ 0 then Except.error "Depth h must be > 0."
  else if p.sl < 0 then Except.error "Slope sl must be >= 0."
  else if ¬(p.jcz = 0 ∨ p.jcz = 1 ∨ p.jcz = 2) then
    Except.error "jcz must be 0 (Pawlowski), 1 (Agroskin), or 2 (Manning)."
  else
    Except.ok (mkResult (runState p).1, (runState p).2)

/-- The validation predicate: exactly the inputs the source does not reject. -/
def validParams (p : ChannelParameters) : Prop :=
  0 < p.nb ∧ 0 < p.h ∧ 0 ≤ p.sl ∧ (p.jcz = 0 ∨ p.jcz = 1 ∨ p.jcz = 2)

/-! ### Fault-sensitive copy of the evaluator

`math.sqrt`, `math.log10` and `/` raise in Python outside their domains; the
safe copies return `none` exactly there. -/

/-- `math.sqrt`: defined only on nonnegative arguments. -/
def safeSqrt (x : ℝ) : Option ℝ := if 0 ≤ x then some (Real.sqrt x) else none

/-- Division: defined only for a nonzero denominator. -/
def safeDiv (x y : ℝ) : Option ℝ := if y = 0 then none else some (x / y)

/-- `math.log10`: defined only on positive arguments. -/
def safeLog10 (x : ℝ) : Option ℝ :=
  if 0 < x then some (Real.logb 10 x) else none

/-- The Chezy-coefficient computation with fault-sensitive primitives. -/
def safeChezy (nb rg : ℝ) (jcz : ℤ) : Option ℝ :=
  if jcz = 0 then
    (safeSqrt nb).bind fun sn =>
      (safeDiv 1 nb).map fun inb =>
        inb * rg ^ (if rg ≥ 1 then 1.5 * sn else 1.3 * sn)
  else if jcz = 1 then
    (safeDiv 1 nb).bind fun inb =>
      (safeLog10 (if rg > 1e-12 then rg else (1e-12 : ℝ))).map fun lg =>
        inb + 17.72 * lg
  else
    (safeDiv 1 nb).map fun inb => inb * rg ^ ((1 : ℝ) / 6)

/-- The loop-body evaluation with fault-sensitive primitives. -/
def evalStepSafe (sl mn nb h : ℝ) (jcz : ℤ) (b : ℝ) : Option StepEval :=
  let w := (b + mn * h) * h
  (safeSqrt (1 + mn ^ 2)).bind fun s1 =>
    let ksi0 := b + 2 * h * s1
    let ksi := if ksi0 ≤ 0 then (1e-12 : ℝ) else ksi0
    (safeDiv w ksi).bind fun rg =>
      (safeChezy nb rg jcz).bind fun cz =>
        let rgsl := rg * sl
        (safeSqrt (if rgsl > 0 then rgsl else 0)).map fun sq =>
          ⟨w, rg, cz, w * cz * sq⟩

/-- The search loop with the fault-sensitive evaluator. -/
def channelLoopSafe (q sl mn nb h : ℝ) (jcz : ℤ) (alh : ℝ) :
    ℕ → ℝ → Best → Option (Best × List Sample)
  | 0, _, best => some (best, [])
  | fuel + 1, b, best =>
    (evalStepSafe sl mn nb h jcz b).bind fun e =>
      let best1 := if e.qt ≤ q then Best.mk b e.qt e.rg e.cz else best
      if e.qt < 1.2 * q then
        (channelLoopSafe q sl mn nb h jcz alh fuel (b + alh) best1).map fun r =>
          (r.1, (b, e.qt) :: r.2)
      else
        some (best1, [(b, e.qt)])

/-- The returned dict with the fault-sensitive square root in `cr05`. -/
def mkResultSafe (best : Best) : Option ResultRecord :=
  (safeSqrt (if best.rgt > 0 then best.rgt else 0)).map fun sq =>
    ⟨best.bt, best.qth, best.rgt, best.czt, best.czt * sq⟩

/-- `compute_channel` with every partial floating-point operation
fault-sensitive: `none` in the payload marks a raised domain fault. -/
def compute_channel_safe (p : ChannelParameters) :
    Except String (Option (ResultRecord × List Sample)) :=
  if p.nb ≤ 0 then Except.error "Barzgarshilt (nb) must be > 0."
  else if p.h ≤ 0 then Except.error "Depth h must be > 0."
  else if p.sl < 0 then Except.error "Slope sl must be >= 0."
  else if ¬(p.jcz = 0 ∨ p.jcz = 1 ∨ p.jcz = 2) then
    Except.error "jcz must be 0 (Pawlowski), 1 (Agroskin), or 2 (Manning)."
  else
    Except.ok
      ((channelLoopSafe p.q p.sl p.mn p.nb p.h p.jcz p.alh p.n p.b0 best0).bind
        fun r => (mkResultSafe r.1).map fun res => (res, r.2))

/-! ### Spec-side definitions

These two definitions follow the wording of the specification (its discharge
formula and its result-selection rule), to be compared with the code-side
definitions above. -/

/-- Discharge formula as the specification states it:
`A = (b + m*h)*h`, `P = b + 2h*sqrt(1+m^2)` clamped to `1e-12` when `P ≤ 0`,
`R = A/P`, `C` by the selected formula (with `max`-style clamps), and
`Q_t = A * C * sqrt (max (R*S) 0)`. -/
def spec_discharge (sl mn nb h : ℝ) (jcz : ℤ) (b : ℝ) : ℝ :=
  let A := (b + mn * h) * h
  let P0 := b + 2 * h * Real.sqrt (1 + mn ^ 2)
  let P := if P0 ≤ 0 then (1e-12 : ℝ) else P0
  let R := A / P
  let C :=
    if jcz = 0 then
      (1 / nb) * R ^ (if R ≥ 1 then 1.5 * Real.sqrt nb else 1.3 * Real.sqrt nb)
    else if jcz = 1 then
      (1 / nb) + 17.72 * Real.logb 10 (max R (1e-12 : ℝ))
    else
      (1 / nb) * R ^ ((1 : ℝ) / 6)
  A * C * Real.sqrt (max (R * sl) 0)

/-- Result-selection rule as the specification states it: scanning the sample
sequence in order, retain the last sample whose discharge is at most `q`,
recomputing the hydraulic radius and the coefficient at that sample's width. -/
def selUpdate (q sl mn nb h : ℝ) (jcz : ℤ) (acc : Best) (s : Sample) : Best :=
  if s.2 ≤ q then
    ⟨s.1, s.2, (evalStep sl mn nb h jcz s.1).rg, (evalStep sl mn nb h jcz s.1).cz⟩
  else acc

/-- Replay of the recorded sample sequence through the selection rule. -/
def specSelect (q sl mn nb h : ℝ) (jcz : ℤ) (ss : List Sample) : Best :=
  ss.foldl (selUpdate q sl mn nb h jcz) best0

/-- The record the specification derives from the replayed selection, with
`cr05 = czt * sqrt rgt`. -/
def specResult (q sl mn nb h : ℝ) (jcz : ℤ) (ss : List Sample) : ResultRecord :=
  let bsel := specSelect q sl mn nb h jcz ss
  ⟨bsel.bt, bsel.qth, bsel.rgt, bsel.czt, bsel.czt * Real.sqrt bsel.rgt⟩

/-! ### Concrete parameter sets used in witnesses and counterexamples -/

/-- A valid parameter set with zero slope and a single step. -/
def pA : ChannelParameters := ⟨1, 0, 0, 1, 1, 2, 1, 1, 1⟩

/-- A valid parameter set with step size `alh = 0` and budget 2. -/
def pB : ChannelParameters := ⟨1, 0, 0, 1, 1, 2, 1, 2, 0⟩

/-- A valid parameter set with negative step size `alh = -1` and budget 2. -/
def pC : ChannelParameters := ⟨1, 0, 0, 1, 1, 2, 1, 2, -1⟩

/-- A valid parameter set with target `q = 0`, zero slope and budget 5. -/
def pD : ChannelParameters := ⟨0, 0, 0, 1, 1, 2, 1, 5, 1⟩

/-- An invalid parameter set: roughness `nb = 0`. -/
def pE : ChannelParameters := ⟨1, 0, 0, 0, 1, 2, 1, 1, 1⟩

/-- A valid parameter set with negative target, side slope and initial width. -/
def pS : ChannelParameters := ⟨-1, 0, -1, 1, 1, 2, -1, 1, 1⟩

/-! ## Basic lemmas -/

/-- Unfolding of the loop at fuel `0`. -/
theorem channelLoop_zero (q sl mn nb h : ℝ) (jcz : ℤ) (alh b : ℝ) (best : Best) :
    channelLoop q sl mn nb h jcz alh 0 b best = (best, []) := rfl

/-- Unfolding of the loop at successor fuel. -/
theorem channelLoop_succ (q sl mn nb h : ℝ) (jcz : ℤ) (alh : ℝ) (fuel : ℕ)
    (b : ℝ) (best : Best) :
    channelLoop q sl mn nb h jcz alh (fuel + 1) b best =
      (let e := evalStep sl mn nb h jcz b
       let best1 := if e.qt ≤ q then Best.mk b e.qt e.rg e.cz else best
       if e.qt < 1.2 * q then
         let r := channelLoop q sl mn nb h jcz alh fuel (b + alh) best1
         (r.1, (b, e.qt) :: r.2)
       else
         (best1, [(b, e.qt)])) := rfl

/-- On validated parameters, `compute_channel` returns the loop's record and
sample trace. -/
theorem compute_channel_eq_ok (p : ChannelParameters) (hv : validParams p) :
    compute_channel p = Except.ok (mkResult (runState p).1, (runState p).2) := by
  obtain ⟨h1, h2, h3, h4⟩ := hv
  unfold compute_channel
  rw [if_neg (not_le.mpr h1), if_neg (not_le.mpr h2), if_neg (not_lt.mpr h3),
    if_neg (not_not_intro h4)]

/-- A successful return of `compute_channel` forces validated parameters and
identifies the record and the trace. -/
theorem compute_channel_ok_inv (p : ChannelParameters) (r : ResultRecord)
    (ss : List Sample) (hok : compute_channel p = Except.ok (r, ss)) :
    validParams p ∧ r = mkResult (runState p).1 ∧ ss = (runState p).2 := by
  unfold compute_channel at hok
  split_ifs at hok with h1 h2 h3 h4
  exact ⟨⟨not_le.mp h1, not_le.mp h2, not_lt.mp h3, h4⟩,
    (Prod.ext_iff.mp (Except.ok.inj hok)).1.symm,
    (Prod.ext_iff.mp (Except.ok.inj hok)).2.symm⟩

/-- The clamp before a square root is invisible in real arithmetic, where
`Real.sqrt` of a nonpositive number is `0`. -/
theorem sqrt_clamp (x : ℝ) :
    Real.sqrt (if x > 0 then x else 0) = Real.sqrt x := by
  split_ifs with hx
  · rfl
  · rw [Real.sqrt_zero, eq_comm]
    exact Real.sqrt_eq_zero'.mpr (le_of_not_lt hx)

/-- The sample trace of one unfolding, with the running best threaded. -/
theorem channelLoop_snd (q sl mn nb h : ℝ) (jcz : ℤ) (alh : ℝ) (fuel : ℕ)
    (b : ℝ) (best : Best) :
    (channelLoop q sl mn nb h jcz alh (fuel + 1) b best).2 =
      if (evalStep sl mn nb h jcz b).qt < 1.2 * q then
        (b, (evalStep sl mn nb h jcz b).qt) ::
          (channelLoop q sl mn nb h jcz alh fuel (b + alh)
            (if (evalStep sl mn nb h jcz b).qt ≤ q then
              Best.mk b (evalStep sl mn nb h jcz b).qt
                (evalStep sl mn nb h jcz b).rg (evalStep sl mn nb h jcz b).cz
             else best)).2
      else [(b, (evalStep sl mn nb h jcz b).qt)] := by
  rw [channelLoop_succ]
  dsimp only
  split_ifs <;> rfl

/-- The sample trace does not depend on the incoming running best. -/
theorem channelLoop_snd_best_irrel (q sl mn nb h : ℝ) (jcz : ℤ) (alh : ℝ) :
    ∀ (fuel : ℕ) (b : ℝ) (best best' : Best),
      (channelLoop q sl mn nb h jcz alh fuel b best).2 =
        (channelLoop q sl mn nb h jcz alh fuel b best').2 := by
  intro fuel
  induction fuel with
  | zero => intro b best best'; rfl
  | succ k ih =>
    intro b best best'
    rw [channelLoop_snd, channelLoop_snd]
    split_ifs <;> first | rfl | exact congrArg _ (ih (b + alh) _ _)

/-- The sample trace of one unfolding, with the running best dropped. -/
theorem channelLoop_snd_succ (q sl mn nb h : ℝ) (jcz : ℤ) (alh : ℝ) (fuel : ℕ)
    (b : ℝ) (best : Best) :
    (channelLoop q sl mn nb h jcz alh (fuel + 1) b best).2 =
      if (evalStep sl mn nb h jcz b).qt < 1.2 * q then
        (b, (evalStep sl mn nb h jcz b).qt) ::
          (channelLoop q sl mn nb h jcz alh fuel (b + alh) best).2
      else [(b, (evalStep sl mn nb h jcz b).qt)] := by
  rw [channelLoop_snd]
  split_ifs <;>
    first
      | rfl
      | exact congrArg _
          (channelLoop_snd_best_irrel q sl mn nb h jcz alh fuel (b + alh) _ best)

/-- The loop emits at most `fuel` samples. -/
theorem loop_len_le (q sl mn nb h : ℝ) (jcz : ℤ) (alh : ℝ) :
    ∀ (fuel : ℕ) (b : ℝ) (best : Best),
      (channelLoop q sl mn nb h jcz alh fuel b best).2.length ≤ fuel := by
  intro fuel
  induction fuel with
  | zero => intro b best; simp [channelLoop_zero]
  | succ k ih =>
    intro b best
    rw [channelLoop_snd_succ]
    split_ifs with hlt
    · simpa using ih (b + alh) best
    · simp

/-- With a positive budget the loop emits at least one sample. -/
theorem loop_ne_nil (q sl mn nb h : ℝ) (jcz : ℤ) (alh : ℝ) (fuel : ℕ)
    (b : ℝ) (best : Best) (hfuel : 1 ≤ fuel) :
    (channelLoop q sl mn nb h jcz alh fuel b best).2 ≠ [] := by
  obtain ⟨k, rfl⟩ := Nat.exists_eq_add_of_le hfuel
  rw [Nat.add_comm, channelLoop_snd_succ]
  split_ifs with hlt <;> simp

/-- Every emitted sample records the discharge the evaluator yields at its
own width. -/
theorem loop_samples_qt (q sl mn nb h : ℝ) (jcz : ℤ) (alh : ℝ) :
    ∀ (fuel : ℕ) (b : ℝ) (best : Best),
      ∀ s ∈ (channelLoop q sl mn nb h jcz alh fuel b best).2,
        s.2 = (evalStep sl mn nb h jcz s.1).qt := by
  intro fuel
  induction fuel with
  | zero => intro b best s hs; simp [channelLoop_zero] at hs
  | succ k ih =>
    intro b best s hs
    rw [channelLoop_snd_succ] at hs
    split_ifs at hs with hlt
    · rcases List.mem_cons.mp hs with hs | hs
      · subst hs; rfl
      · exact ih (b + alh) best s hs
    · rcases List.mem_singleton.mp hs with rfl; rfl

/-- The emitted widths are `b, b + alh, b + 2*alh, ...` in order. -/
theorem loop_widths (q sl mn nb h : ℝ) (jcz : ℤ) (alh : ℝ) :
    ∀ (fuel : ℕ) (b : ℝ) (best : Best),
      (channelLoop q sl mn nb h jcz alh fuel b best).2.map Prod.fst =
        (List.range (channelLoop q sl mn nb h jcz alh fuel b best).2.length).map
          (fun j : ℕ => b + (j : ℝ) * alh) := by
  intro fuel
  induction fuel with
  | zero => intro b best; simp [channelLoop_zero]
  | succ k ih =>
    intro b best
    rw [channelLoop_snd_succ]
    split_ifs with hlt
    · rw [List.map_cons, List.length_cons, List.range_succ_eq_map,
        List.map_cons, List.map_map, ih (b + alh) best]
      refine congrArg₂ _ (by norm_num) (List.map_congr_left ?_)
      intro j hj
      simp only [Function.comp_apply]
      push_cast
      ring
    · simp [List.range_succ]

/-- With a nonnegative step every emitted width is at least the starting
width. -/
theorem loop_widths_lb (q sl mn nb h : ℝ) (jcz : ℤ) (alh : ℝ)
    (halh : 0 ≤ alh) :
    ∀ (fuel : ℕ) (b : ℝ) (best : Best),
      ∀ s ∈ (channelLoop q sl mn nb h jcz alh fuel b best).2, b ≤ s.1 := by
  intro fuel
  induction fuel with
  | zero => intro b best s hs; simp [channelLoop_zero] at hs
  | succ k ih =>
    intro b best s hs
    rw [channelLoop_snd_succ] at hs
    split_ifs at hs with hlt
    · rcases List.mem_cons.mp hs with hs | hs
      · subst hs; exact le_refl b
      · exact le_trans (by linarith) (ih (b + alh) best s hs)
    · rcases List.mem_singleton.mp hs with rfl; exact le_refl b

/-- Either the loop never reached the overshoot threshold and used its whole
budget, or the trace consists of below-threshold samples followed by one
final sample at or above the threshold. -/
theorem loop_break_shape (q sl mn nb h : ℝ) (jcz : ℤ) (alh : ℝ) :
    ∀ (fuel : ℕ) (b : ℝ) (best : Best),
      ((∀ s ∈ (channelLoop q sl mn nb h jcz alh fuel b best).2,
          s.2 < 1.2 * q) ∧
        (channelLoop q sl mn nb h jcz alh fuel b best).2.length = fuel) ∨
      (∃ pre last, (channelLoop q sl mn nb h jcz alh fuel b best).2 =
          pre ++ [last] ∧ (∀ s ∈ pre, s.2 < 1.2 * q) ∧ 1.2 * q ≤ last.2) := by
  intro fuel
  induction fuel with
  | zero => intro b best; left; constructor <;> simp [channelLoop_zero]
  | succ k ih =>
    intro b best
    rw [channelLoop_snd_succ]
    split_ifs with hlt
    · rcases ih (b + alh) best with ⟨hall, hlen⟩ | ⟨pre, last, heq, hpre, hlast⟩
      · left
        refine ⟨?_, by simp [hlen]⟩
        intro s hs
        rcases List.mem_cons.mp hs with hs | hs
        · subst hs; exact hlt
        · exact hall s hs
      · right
        refine ⟨(b, (evalStep sl mn nb h jcz b).qt) :: pre, last, by simp [heq],
          ?_, hlast⟩
        intro s hs
        rcases List.mem_cons.mp hs with hs | hs
        · subst hs; exact hlt
        · exact hpre s hs
    · right
      exact ⟨[], (b, (evalStep sl mn nb h jcz b).qt), by simp, by simp,
        le_of_not_lt hlt⟩

/-- The final accumulator of one unfolding. -/
theorem channelLoop_fst_succ (q sl mn nb h : ℝ) (jcz : ℤ) (alh : ℝ) (fuel : ℕ)
    (b : ℝ) (best : Best) :
    (channelLoop q sl mn nb h jcz alh (fuel + 1) b best).1 =
      if (evalStep sl mn nb h jcz b).qt < 1.2 * q then
        (channelLoop q sl mn nb h jcz alh fuel (b + alh)
          (if (evalStep sl mn nb h jcz b).qt ≤ q then
            Best.mk b (evalStep sl mn nb h jcz b).qt
              (evalStep sl mn nb h jcz b).rg (evalStep sl mn nb h jcz b).cz
           else best)).1
      else
        (if (evalStep sl mn nb h jcz b).qt ≤ q then
          Best.mk b (evalStep sl mn nb h jcz b).qt
            (evalStep sl mn nb h jcz b).rg (evalStep sl mn nb h jcz b).cz
         else best) := by
  rw [channelLoop_succ]
  dsimp only
  split_ifs <;> rfl

/-- The final accumulator is the fold of the selection rule over the emitted
trace, started from the incoming accumulator. -/
theorem loop_best_eq_foldl (q sl mn nb h : ℝ) (jcz : ℤ) (alh : ℝ) :
    ∀ (fuel : ℕ) (b : ℝ) (best : Best),
      (channelLoop q sl mn nb h jcz alh fuel b best).1 =
        List.foldl (selUpdate q sl mn nb h jcz) best
          (channelLoop q sl mn nb h jcz alh fuel b best).2 := by
  intro fuel
  induction fuel with
  | zero => intro b best; rfl
  | succ k ih =>
    intro b best
    rw [channelLoop_fst_succ, channelLoop_snd_succ]
    by_cases hlt : (evalStep sl mn nb h jcz b).qt < 1.2 * q
    · rw [if_pos hlt, if_pos hlt, List.foldl_cons,
        show selUpdate q sl mn nb h jcz best (b, (evalStep sl mn nb h jcz b).qt)
            = (if (evalStep sl mn nb h jcz b).qt ≤ q then
                Best.mk b (evalStep sl mn nb h jcz b).qt
                  (evalStep sl mn nb h jcz b).rg (evalStep sl mn nb h jcz b).cz
               else best) from rfl,
        ih (b + alh) _]
      exact congrArg _ (channelLoop_snd_best_irrel q sl mn nb h jcz alh k
        (b + alh) _ best)
    · rw [if_neg hlt, if_neg hlt, List.foldl_cons, List.foldl_nil]
      rfl

/-- Folding the selection rule over samples none of which satisfies the
target leaves the accumulator unchanged. -/
theorem foldl_no_update (q sl mn nb h : ℝ) (jcz : ℤ) :
    ∀ (ss : List Sample) (acc : Best), (∀ s ∈ ss, ¬s.2 ≤ q) →
      List.foldl (selUpdate q sl mn nb h jcz) acc ss = acc := by
  intro ss
  induction ss with
  | nil => intro acc _; rfl
  | cons a t iht =>
    intro acc hall
    rw [List.foldl_cons,
      show selUpdate q sl mn nb h jcz acc a = acc from
        if_neg (hall a (List.mem_cons_self a t))]
    exact iht acc fun s hs => hall s (List.mem_cons_of_mem a hs)

/-- If no emitted sample reaches the overshoot threshold, the loop uses its
whole budget. -/
theorem loop_len_full (q sl mn nb h : ℝ) (jcz : ℤ) (alh : ℝ) (fuel : ℕ)
    (b : ℝ) (best : Best)
    (hall : ∀ s ∈ (channelLoop q sl mn nb h jcz alh fuel b best).2,
      s.2 < 1.2 * q) :
    (channelLoop q sl mn nb h jcz alh fuel b best).2.length = fuel := by
  rcases loop_break_shape q sl mn nb h jcz alh fuel b best with
    ⟨_, hlen⟩ | ⟨pre, last, heq, _, hlast⟩
  · exact hlen
  · exact absurd (hall last (heq ▸ by simp)) (not_lt.mpr hlast)

/-- With a nonnegative step, whenever some emitted sample satisfies the
target, the final accumulator records a satisfying sample of maximal width,
with the radius and coefficient recomputable at that width. -/
theorem loop_best_max (q sl mn nb h : ℝ) (jcz : ℤ) (alh : ℝ) (halh : 0 ≤ alh) :
    ∀ (fuel : ℕ) (b : ℝ) (best : Best),
      (∃ s ∈ (channelLoop q sl mn nb h jcz alh fuel b best).2, s.2 ≤ q) →
        (∃ s ∈ (channelLoop q sl mn nb h jcz alh fuel b best).2, s.2 ≤ q ∧
          s.1 = (channelLoop q sl mn nb h jcz alh fuel b best).1.bt ∧
          (channelLoop q sl mn nb h jcz alh fuel b best).1.qth = s.2 ∧
          (channelLoop q sl mn nb h jcz alh fuel b best).1.rgt =
            (evalStep sl mn nb h jcz s.1).rg ∧
          (channelLoop q sl mn nb h jcz alh fuel b best).1.czt =
            (evalStep sl mn nb h jcz s.1).cz) ∧
        (∀ s ∈ (channelLoop q sl mn nb h jcz alh fuel b best).2, s.2 ≤ q →
          s.1 ≤ (channelLoop q sl mn nb h jcz alh fuel b best).1.bt) := by
  intro fuel
  induction fuel with
  | zero => intro b best hex; simp [channelLoop_zero] at hex
  | succ k ih =>
    intro b best hex
    by_cases hlt : (evalStep sl mn nb h jcz b).qt < 1.2 * q
    · rw [channelLoop_snd_succ, if_pos hlt] at hex
      rw [channelLoop_snd_succ, if_pos hlt, channelLoop_fst_succ, if_pos hlt]
      have hirr := channelLoop_snd_best_irrel q sl mn nb h jcz alh k (b + alh)
        (if (evalStep sl mn nb h jcz b).qt ≤ q then
          Best.mk b (evalStep sl mn nb h jcz b).qt
            (evalStep sl mn nb h jcz b).rg (evalStep sl mn nb h jcz b).cz
         else best) best
      rw [← hirr] at hex ⊢
      by_cases hsat : ∃ s ∈ (channelLoop q sl mn nb h jcz alh k (b + alh)
          (if (evalStep sl mn nb h jcz b).qt ≤ q then
            Best.mk b (evalStep sl mn nb h jcz b).qt
              (evalStep sl mn nb h jcz b).rg (evalStep sl mn nb h jcz b).cz
           else best)).2, s.2 ≤ q
      · obtain ⟨⟨s2, hs2, hs2q, hs2bt, hqth, hrgt, hczt⟩, hbound⟩ :=
          ih (b + alh) _ hsat
        refine ⟨⟨s2, List.mem_cons_of_mem _ hs2, hs2q, hs2bt, hqth, hrgt,
          hczt⟩, ?_⟩
        intro s hs hsq
        rcases List.mem_cons.mp hs with rfl | hs'
        · have hlb : b + alh ≤ s2.1 :=
            loop_widths_lb q sl mn nb h jcz alh halh k (b + alh) _ s2 hs2
          show b ≤ _
          rw [← hs2bt]
          linarith
        · exact hbound s hs' hsq
      · obtain ⟨s, hs, hsq⟩ := hex
        rcases List.mem_cons.mp hs with rfl | hs'
        swap
        · exact absurd ⟨s, hs', hsq⟩ hsat
        have hB : (if (evalStep sl mn nb h jcz b).qt ≤ q then
            Best.mk b (evalStep sl mn nb h jcz b).qt
              (evalStep sl mn nb h jcz b).rg (evalStep sl mn nb h jcz b).cz
           else best) = Best.mk b (evalStep sl mn nb h jcz b).qt
            (evalStep sl mn nb h jcz b).rg (evalStep sl mn nb h jcz b).cz :=
          if_pos hsq
        have hfst : (channelLoop q sl mn nb h jcz alh k (b + alh)
            (if (evalStep sl mn nb h jcz b).qt ≤ q then
              Best.mk b (evalStep sl mn nb h jcz b).qt
                (evalStep sl mn nb h jcz b).rg (evalStep sl mn nb h jcz b).cz
             else best)).1 = Best.mk b (evalStep sl mn nb h jcz b).qt
            (evalStep sl mn nb h jcz b).rg (evalStep sl mn nb h jcz b).cz := by
          rw [loop_best_eq_foldl, foldl_no_update q sl mn nb h jcz _ _
            (by push_neg at hsat; exact fun s hs => not_le.mpr (hsat s hs)), hB]
        refine ⟨⟨(b, (evalStep sl mn nb h jcz b).qt),
          List.mem_cons_self _ _, hsq, ?_, ?_, ?_, ?_⟩, ?_⟩
        · rw [hfst]
        · rw [hfst]
        · rw [hfst]
        · rw [hfst]
        · intro s hs2 hsq2
          rcases List.mem_cons.mp hs2 with rfl | hs2'
          · rw [hfst]
          · exact absurd hsq2
              (by push_neg at hsat; exact not_le.mpr (hsat s hs2'))
    · rw [channelLoop_snd_succ, if_neg hlt] at hex
      rw [channelLoop_snd_succ, if_neg hlt, channelLoop_fst_succ, if_neg hlt]
      obtain ⟨s, hs, hsq⟩ := hex
      rcases List.mem_singleton.mp hs with rfl
      rw [if_pos hsq]
      refine ⟨⟨(b, (evalStep sl mn nb h jcz b).qt),
        List.mem_singleton_self _, hsq, rfl, rfl, rfl, rfl⟩, ?_⟩
      intro s hs2 _
      rcases List.mem_singleton.mp hs2 with rfl
      exact le_refl b

/-- The source's positive-part clamp written with `max`. -/
theorem ite_pos_max (x : ℝ) : (if x > 0 then x else 0) = max x 0 := by
  split_ifs with hx
  · exact (max_eq_left (le_of_lt hx)).symm
  · exact (max_eq_right (le_of_not_lt hx)).symm

/-- The source's epsilon clamp written with `max`. -/
theorem ite_eps_max (x : ℝ) :
    (if x > (1e-12 : ℝ) then x else (1e-12 : ℝ)) = max x (1e-12 : ℝ) := by
  split_ifs with hx
  · exact (max_eq_left (le_of_lt hx)).symm
  · exact (max_eq_right (le_of_not_lt hx)).symm

/-- The evaluator's discharge coincides with the specification's discharge
formula. -/
theorem evalStep_qt_eq_spec (sl mn nb h : ℝ) (jcz : ℤ) (b : ℝ) :
    (evalStep sl mn nb h jcz b).qt = spec_discharge sl mn nb h jcz b := by
  unfold evalStep spec_discharge
  dsimp only
  rw [ite_eps_max, ite_pos_max]

/-- `safeSqrt` succeeds on nonnegative input. -/
theorem safeSqrt_of_nonneg {x : ℝ} (hx : 0 ≤ x) :
    safeSqrt x = some (Real.sqrt x) := if_pos hx

/-- `safeDiv` succeeds on a nonzero denominator. -/
theorem safeDiv_of_ne {x y : ℝ} (hy : y ≠ 0) : safeDiv x y = some (x / y) :=
  if_neg hy

/-- `safeLog10` succeeds on positive input. -/
theorem safeLog10_of_pos {x : ℝ} (hx : 0 < x) :
    safeLog10 x = some (Real.logb 10 x) := if_pos hx

/-- With a positive roughness the fault-sensitive Chezy computation succeeds
and returns the evaluator's coefficient. -/
theorem safeChezy_eq (nb rg : ℝ) (jcz : ℤ) (hnb : 0 < nb) :
    safeChezy nb rg jcz = some (
      if jcz = 0 then
        (1 / nb) * rg ^ (if rg ≥ 1 then 1.5 * Real.sqrt nb
          else 1.3 * Real.sqrt nb)
      else if jcz = 1 then
        (1 / nb) + 17.72 * Real.logb 10 (if rg > 1e-12 then rg
          else (1e-12 : ℝ))
      else (1 / nb) * rg ^ ((1 : ℝ) / 6)) := by
  unfold safeChezy
  by_cases hj0 : jcz = 0
  · rw [if_pos hj0, if_pos hj0, safeSqrt_of_nonneg hnb.le, Option.some_bind,
      safeDiv_of_ne hnb.ne', Option.map_some']
  · rw [if_neg hj0, if_neg hj0]
    by_cases hj1 : jcz = 1
    · rw [if_pos hj1, if_pos hj1, safeDiv_of_ne hnb.ne', Option.some_bind,
        safeLog10_of_pos (x := if rg > 1e-12 then rg else (1e-12 : ℝ))
          (by split_ifs with hrg
              · exact lt_trans (by norm_num) hrg
              · norm_num),
        Option.map_some']
    · rw [if_neg hj1, if_neg hj1, safeDiv_of_ne hnb.ne', Option.map_some']

/-- With a positive roughness the fault-sensitive evaluator succeeds and
returns the evaluator's step values: no operation leaves its domain. -/
theorem evalStepSafe_eq (sl mn nb h : ℝ) (jcz : ℤ) (b : ℝ) (hnb : 0 < nb) :
    evalStepSafe sl mn nb h jcz b = some (evalStep sl mn nb h jcz b) := by
  unfold evalStepSafe evalStep
  dsimp only
  rw [safeSqrt_of_nonneg (x := 1 + mn ^ 2) (by positivity), Option.some_bind]
  rw [safeDiv_of_ne (y := if b + 2 * h * Real.sqrt (1 + mn ^ 2) ≤ 0 then
      (1e-12 : ℝ) else b + 2 * h * Real.sqrt (1 + mn ^ 2))
    (by split_ifs with hk
        · norm_num
        · exact ne_of_gt (lt_of_not_le hk)), Option.some_bind]
  rw [safeChezy_eq _ _ _ hnb, Option.some_bind]
  rw [safeSqrt_of_nonneg
      (x := if ((b + mn * h) * h /
          (if b + 2 * h * Real.sqrt (1 + mn ^ 2) ≤ 0 then (1e-12 : ℝ)
           else b + 2 * h * Real.sqrt (1 + mn ^ 2))) * sl > 0 then
          ((b + mn * h) * h /
            (if b + 2 * h * Real.sqrt (1 + mn ^ 2) ≤ 0 then (1e-12 : ℝ)
             else b + 2 * h * Real.sqrt (1 + mn ^ 2))) * sl
        else 0)
      (by split_ifs <;>
        first
          | exact le_refl 0
          | exact le_of_lt (by assumption)), Option.map_some']

/-- Unfolding of the fault-sensitive loop at successor fuel. -/
theorem channelLoopSafe_succ (q sl mn nb h : ℝ) (jcz : ℤ) (alh : ℝ)
    (fuel : ℕ) (b : ℝ) (best : Best) :
    channelLoopSafe q sl mn nb h jcz alh (fuel + 1) b best =
      (evalStepSafe sl mn nb h jcz b).bind fun e =>
        let best1 := if e.qt ≤ q then Best.mk b e.qt e.rg e.cz else best
        if e.qt < 1.2 * q then
          (channelLoopSafe q sl mn nb h jcz alh fuel (b + alh) best1).map
            fun r => (r.1, (b, e.qt) :: r.2)
        else
          some (best1, [(b, e.qt)]) := rfl

/-- With a positive roughness the fault-sensitive loop succeeds and returns
the loop's state. -/
theorem channelLoopSafe_eq (q sl mn nb h : ℝ) (jcz : ℤ) (alh : ℝ)
    (hnb : 0 < nb) :
    ∀ (fuel : ℕ) (b : ℝ) (best : Best),
      channelLoopSafe q sl mn nb h jcz alh fuel b best =
        some (channelLoop q sl mn nb h jcz alh fuel b best) := by
  intro fuel
  induction fuel with
  | zero => intro b best; rfl
  | succ k ih =>
    intro b best
    rw [channelLoopSafe_succ, evalStepSafe_eq sl mn nb h jcz b hnb,
      Option.some_bind, channelLoop_succ]
    dsimp only
    by_cases hlt : (evalStep sl mn nb h jcz b).qt < 1.2 * q
    · rw [if_pos hlt, if_pos hlt, ih (b + alh) _, Option.map_some']
    · rw [if_neg hlt, if_neg hlt]

/-- The fault-sensitive record builder always succeeds. -/
theorem mkResultSafe_eq (best : Best) :
    mkResultSafe best = some (mkResult best) := by
  unfold mkResultSafe mkResult
  rw [safeSqrt_of_nonneg (x := if best.rgt > 0 then best.rgt else 0)
    (by split_ifs with hr
        · exact le_of_lt hr
        · exact le_refl 0), Option.map_some']

/-- With zero slope the discharge at width `1` (depth `1`, no side slope,
roughness `1`, Manning) is `0`. -/
theorem evalStep_b1_qt : (evalStep 0 0 1 1 2 1).qt = 0 := by
  unfold evalStep
  dsimp only
  norm_num

/-- With zero slope the discharge at width `0` (depth `1`, no side slope,
roughness `1`, Manning) is `0`. -/
theorem evalStep_b0_qt : (evalStep 0 0 1 1 2 0).qt = 0 := by
  unfold evalStep
  dsimp only
  norm_num

/-- The run at `pA` emits the single sample `(1, 0)`. -/
theorem runState_pA_snd : (runState pA).2 = [((1 : ℝ), (0 : ℝ))] := by
  show (channelLoop 1 0 0 1 1 2 1 (0 + 1) 1 best0).2 = [((1 : ℝ), (0 : ℝ))]
  rw [channelLoop_snd_succ, evalStep_b1_qt,
    if_pos (by norm_num : (0 : ℝ) < 1.2 * 1), channelLoop_zero]

/-- The run at `pB` emits the sample `(1, 0)` twice. -/
theorem runState_pB_snd :
    (runState pB).2 = [((1 : ℝ), (0 : ℝ)), ((1 : ℝ), (0 : ℝ))] := by
  show (channelLoop 1 0 0 1 1 2 0 (1 + 1) 1 best0).2 =
    [((1 : ℝ), (0 : ℝ)), ((1 : ℝ), (0 : ℝ))]
  rw [channelLoop_snd_succ, evalStep_b1_qt,
    if_pos (by norm_num : (0 : ℝ) < 1.2 * 1),
    show ((1 : ℝ) + 0) = 1 from by norm_num,
    show (1 : ℕ) = 0 + 1 from rfl, channelLoop_snd_succ, evalStep_b1_qt,
    if_pos (by norm_num : (0 : ℝ) < 1.2 * 1), channelLoop_zero]

/-- The run at `pC` emits the samples `(1, 0)` and `(0, 0)` in order. -/
theorem runState_pC_snd :
    (runState pC).2 = [((1 : ℝ), (0 : ℝ)), ((0 : ℝ), (0 : ℝ))] := by
  show (channelLoop 1 0 0 1 1 2 (-1) (1 + 1) 1 best0).2 =
    [((1 : ℝ), (0 : ℝ)), ((0 : ℝ), (0 : ℝ))]
  rw [channelLoop_snd_succ, evalStep_b1_qt,
    if_pos (by norm_num : (0 : ℝ) < 1.2 * 1),
    show ((1 : ℝ) + -1) = 0 from by norm_num,
    show (1 : ℕ) = 0 + 1 from rfl, channelLoop_snd_succ, evalStep_b0_qt,
    if_pos (by norm_num : (0 : ℝ) < 1.2 * 1), channelLoop_zero]

/-- The run at `pC` ends with best width `0`, although the satisfying sample
of largest width sits at width `1`. -/
theorem runState_pC_bt : (runState pC).1.bt = 0 := by
  show (channelLoop 1 0 0 1 1 2 (-1) (1 + 1) 1 best0).1.bt = 0
  rw [channelLoop_fst_succ, evalStep_b1_qt,
    if_pos (by norm_num : (0 : ℝ) ≤ 1),
    if_pos (by norm_num : (0 : ℝ) < 1.2 * 1),
    show ((1 : ℝ) + -1) = 0 from by norm_num,
    show (1 : ℕ) = 0 + 1 from rfl, channelLoop_fst_succ, evalStep_b0_qt,
    if_pos (by norm_num : (0 : ℝ) ≤ 1),
    if_pos (by norm_num : (0 : ℝ) < 1.2 * 1), channelLoop_zero]

/-- The run at `pD` stops after its first step: its discharge `0` already
meets the stop test against `1.2 * 0`. -/
theorem runState_pD_snd : (runState pD).2 = [((1 : ℝ), (0 : ℝ))] := by
  show (channelLoop 0 0 0 1 1 2 1 (4 + 1) 1 best0).2 = [((1 : ℝ), (0 : ℝ))]
  rw [channelLoop_snd_succ, evalStep_b1_qt,
    if_neg (by norm_num : ¬((0 : ℝ) < 1.2 * 0))]

/-- `runState` unfolded to the loop call. -/
theorem runState_def (p : ChannelParameters) :
    runState p =
      channelLoop p.q p.sl p.mn p.nb p.h p.jcz p.alh p.n p.b0 best0 := rfl

/-- Projection of the returned record: best width. -/
theorem mkResult_bt (best : Best) : (mkResult best).bt = best.bt := rfl

/-- Projection of the returned record: best discharge. -/
theorem mkResult_qth (best : Best) : (mkResult best).qth = best.qth := rfl

/-- Projection of the returned record: best hydraulic radius. -/
theorem mkResult_rgt (best : Best) : (mkResult best).rgt = best.rgt := rfl

/-- Projection of the returned record: best coefficient. -/
theorem mkResult_czt (best : Best) : (mkResult best).czt = best.czt := rfl

/-- On any rejected parameter set `compute_channel` is one of the four
source error messages. -/
theorem error_of_bad (p : ChannelParameters)
    (hbad : p.nb ≤ 0 ∨ p.h ≤ 0 ∨ p.sl < 0 ∨
      ¬(p.jcz = 0 ∨ p.jcz = 1 ∨ p.jcz = 2)) :
    ∃ msg, compute_channel p = Except.error msg := by
  unfold compute_channel
  split_ifs with h1 h2 h3 h4
  · exact ⟨_, rfl⟩
  · exact ⟨_, rfl⟩
  · exact ⟨_, rfl⟩
  · rcases hbad with hb | hb | hb | hb
    exacts [absurd hb h1, absurd hb h2, absurd hb h3, absurd h4 hb]
  · exact ⟨_, rfl⟩

/-! ## Claim theorems -/

/-- C2: on any input with `nb ≤ 0`, `h ≤ 0`, `sl < 0` or a selector outside
0, 1, 2, `compute_channel` raises a descriptive domain error, and no record
or sample trace is produced. -/
theorem c2_validation_rejects (p : ChannelParameters)
    (hbad : p.nb ≤ 0 ∨ p.h ≤ 0 ∨ p.sl < 0 ∨
      ¬(p.jcz = 0 ∨ p.jcz = 1 ∨ p.jcz = 2)) :
    (∃ msg, compute_channel p = Except.error msg) ∧
    ∀ r ss, compute_channel p ≠ Except.ok (r, ss) := by
  have herr := error_of_bad p hbad
  refine ⟨herr, ?_⟩
  intro r ss hok
  obtain ⟨msg, hmsg⟩ := herr
  rw [hmsg] at hok
  exact Except.noConfusion hok

/-- C2 witness at `pE` (roughness `nb = 0`). -/
theorem c2_witness :
    (pE.nb ≤ 0 ∨ pE.h ≤ 0 ∨ pE.sl < 0 ∨
      ¬(pE.jcz = 0 ∨ pE.jcz = 1 ∨ pE.jcz = 2)) ∧
    ∃ msg, compute_channel pE = Except.error msg :=
  ⟨Or.inl (by norm_num [pE]),
    (c2_validation_rejects pE (Or.inl (by norm_num [pE]))).1⟩

/-- C3: every sample a successful run emits carries the discharge given by
the specification's formula at its own width. -/
theorem c3_sample_discharge (p : ChannelParameters) (r : ResultRecord)
    (ss : List Sample) (hok : compute_channel p = Except.ok (r, ss)) :
    ∀ s ∈ ss, s.2 = spec_discharge p.sl p.mn p.nb p.h p.jcz s.1 := by
  obtain ⟨hv, hr, hss⟩ := compute_channel_ok_inv p r ss hok
  subst hss
  intro s hs
  rw [runState_def] at hs
  rw [loop_samples_qt p.q p.sl p.mn p.nb p.h p.jcz p.alh p.n p.b0 best0 s hs]
  exact evalStep_qt_eq_spec p.sl p.mn p.nb p.h p.jcz s.1

/-- C3 witness: the sample of the run at `pA` satisfies the formula. -/
theorem c3_witness :
    ((1 : ℝ), (0 : ℝ)).2 =
      spec_discharge pA.sl pA.mn pA.nb pA.h pA.jcz ((1 : ℝ), (0 : ℝ)).1 :=
  c3_sample_discharge pA (mkResult (runState pA).1) ((runState pA).2)
    (compute_channel_eq_ok pA (by norm_num [validParams, pA]))
    ((1 : ℝ), (0 : ℝ))
    (by rw [runState_pA_snd]; exact List.mem_singleton_self _)

/-- C10: `compute_channel` errors exactly on the four rejected conditions,
and on every validated input (the target, the side slope and the initial
width unconstrained) the search loop runs and emits a sample. -/
theorem c10_validation_complete (p : ChannelParameters) :
    ((∃ msg, compute_channel p = Except.error msg) ↔
      (p.nb ≤ 0 ∨ p.h ≤ 0 ∨ p.sl < 0 ∨
        ¬(p.jcz = 0 ∨ p.jcz = 1 ∨ p.jcz = 2))) ∧
    (validParams p → 1 ≤ p.n → (runState p).2 ≠ []) := by
  constructor
  · constructor
    · rintro ⟨msg, hmsg⟩
      by_contra hnot
      push_neg at hnot
      obtain ⟨hnb, hh, hsl, hjcz⟩ := hnot
      rw [compute_channel_eq_ok p ⟨hnb, hh, hsl, hjcz⟩] at hmsg
      exact Except.noConfusion hmsg
    · exact error_of_bad p
  · intro hv hn
    rw [runState_def]
    exact loop_ne_nil p.q p.sl p.mn p.nb p.h p.jcz p.alh p.n p.b0 best0 hn

/-- C10 witness at `pS`: a negative target, side slope and initial width
still pass validation and the loop emits a sample. -/
theorem c10_witness :
    validParams pS ∧ 1 ≤ pS.n ∧ (runState pS).2 ≠ [] := by
  have hv : validParams pS := by norm_num [validParams, pS]
  exact ⟨hv, by norm_num [pS],
    (c10_validation_complete pS).2 hv (by norm_num [pS])⟩

/-- C4: a successful run emits at most `n` samples, widths advance from `b0`
by exactly `alh` per step, every non-final step was strictly below the
overshoot threshold `1.2 * q`, and a run that stops before the budget ends
on a sample at or above the threshold. -/
theorem c4_budget_and_overshoot (p : ChannelParameters) (r : ResultRecord)
    (ss : List Sample) (hok : compute_channel p = Except.ok (r, ss)) :
    ss.length ≤ p.n ∧
    ss.map Prod.fst =
      (List.range ss.length).map (fun j : ℕ => p.b0 + (j : ℝ) * p.alh) ∧
    (∀ s ∈ ss.dropLast, s.2 < 1.2 * p.q) ∧
    (ss.length < p.n →
      ∃ pre last, ss = pre ++ [last] ∧ 1.2 * p.q ≤ last.2) := by
  obtain ⟨hv, hr, hss⟩ := compute_channel_ok_inv p r ss hok
  subst hss
  rw [runState_def]
  refine ⟨loop_len_le p.q p.sl p.mn p.nb p.h p.jcz p.alh p.n p.b0 best0,
    loop_widths p.q p.sl p.mn p.nb p.h p.jcz p.alh p.n p.b0 best0, ?_, ?_⟩
  · rcases loop_break_shape p.q p.sl p.mn p.nb p.h p.jcz p.alh p.n p.b0 best0
      with ⟨hall, _⟩ | ⟨pre, last, heq, hpre, _⟩
    · intro s hs
      exact hall s (List.dropLast_subset _ hs)
    · intro s hs
      rw [heq, List.dropLast_concat] at hs
      exact hpre s hs
  · intro hlen
    rcases loop_break_shape p.q p.sl p.mn p.nb p.h p.jcz p.alh p.n p.b0 best0
      with ⟨_, hfull⟩ | ⟨pre, last, heq, _, hlast⟩
    · rw [hfull] at hlen
      exact absurd hlen (lt_irrefl _)
    · exact ⟨pre, last, heq, hlast⟩

/-- C4 witness at `pA`. -/
theorem c4_witness :
    (runState pA).2.length ≤ pA.n ∧
    ∀ s ∈ (runState pA).2.dropLast, s.2 < 1.2 * pA.q :=
  ⟨(c4_budget_and_overshoot pA (mkResult (runState pA).1) ((runState pA).2)
      (compute_channel_eq_ok pA (by norm_num [validParams, pA]))).1,
   (c4_budget_and_overshoot pA (mkResult (runState pA).1) ((runState pA).2)
      (compute_channel_eq_ok pA (by norm_num [validParams, pA]))).2.2.1⟩

/-- C5 counterexample: at `pD` (target `0`, zero slope) the only emitted
discharge is `0`, which never exceeds `1.2 * 0`, yet the loop stops after
one step, not after the budget of `5`. -/
theorem c5_counterexample :
    validParams pD ∧
    (∀ s ∈ (runState pD).2, s.2 ≤ 1.2 * pD.q) ∧
    (runState pD).2.length ≠ pD.n := by
  refine ⟨by norm_num [validParams, pD], ?_, ?_⟩
  · intro s hs
    rw [runState_pD_snd] at hs
    rcases List.mem_singleton.mp hs with rfl
    norm_num [pD]
  · rw [runState_pD_snd]
    norm_num [pD]

/-- C5 (amended to the source's strict stop test): if every emitted sample
stays strictly below `1.2 * q`, a validated run returns without error after
exactly `n` steps, and when no sample satisfies the target the record is
all-zero. -/
theorem c5_budget_exhaustion (p : ChannelParameters) (hv : validParams p)
    (hall : ∀ s ∈ (runState p).2, s.2 < 1.2 * p.q) :
    compute_channel p = Except.ok (mkResult (runState p).1, (runState p).2) ∧
    (runState p).2.length = p.n ∧
    ((∀ s ∈ (runState p).2, ¬s.2 ≤ p.q) →
      mkResult (runState p).1 = ResultRecord.mk 0 0 0 0 0) := by
  refine ⟨compute_channel_eq_ok p hv, ?_, ?_⟩
  · rw [runState_def] at hall ⊢
    exact loop_len_full p.q p.sl p.mn p.nb p.h p.jcz p.alh p.n p.b0 best0 hall
  · intro hnone
    rw [runState_def] at hnone ⊢
    rw [loop_best_eq_foldl,
      foldl_no_update p.q p.sl p.mn p.nb p.h p.jcz _ best0 hnone]
    unfold mkResult best0
    norm_num

/-- C5 witness at `pA`. -/
theorem c5_witness : validParams pA ∧ (runState pA).2.length = pA.n := by
  have hv : validParams pA := by norm_num [validParams, pA]
  refine ⟨hv, (c5_budget_exhaustion pA hv ?_).2.1⟩
  intro s hs
  rw [runState_pA_snd] at hs
  rcases List.mem_singleton.mp hs with rfl
  norm_num [pA]

/-- C7 counterexample: at `pB` (step size `0`) two samples share the width
`1`, so the emitted widths are not strictly increasing. -/
theorem c7_counterexample :
    validParams pB ∧
    ¬((runState pB).2.map Prod.fst).Pairwise (fun x y => x < y) := by
  refine ⟨by norm_num [validParams, pB], ?_⟩
  rw [runState_pB_snd]
  simp

/-- C7 (amended to a positive step size): a successful run's widths start at
`b0`, advance by exactly `alh` per step, and are strictly increasing. -/
theorem c7_widths_increasing (p : ChannelParameters) (r : ResultRecord)
    (ss : List Sample) (hok : compute_channel p = Except.ok (r, ss))
    (halh : 0 < p.alh) :
    ss.map Prod.fst =
      (List.range ss.length).map (fun j : ℕ => p.b0 + (j : ℝ) * p.alh) ∧
    (ss.map Prod.fst).Pairwise (fun x y => x < y) := by
  obtain ⟨hv, hr, hss⟩ := compute_channel_ok_inv p r ss hok
  subst hss
  rw [runState_def]
  have hw := loop_widths p.q p.sl p.mn p.nb p.h p.jcz p.alh p.n p.b0 best0
  refine ⟨hw, ?_⟩
  rw [hw]
  refine (List.pairwise_lt_range _).map _ ?_
  intro a b hab
  exact add_lt_add_left
    (mul_lt_mul_of_pos_right (Nat.cast_lt.mpr hab) halh) p.b0

/-- C7 witness at `pA`. -/
theorem c7_witness :
    (0 : ℝ) < pA.alh ∧
    ((runState pA).2.map Prod.fst).Pairwise (fun x y => x < y) :=
  ⟨by norm_num [pA],
    (c7_widths_increasing pA (mkResult (runState pA).1) ((runState pA).2)
      (compute_channel_eq_ok pA (by norm_num [validParams, pA]))
      (by norm_num [pA])).2⟩

/-- C8: in every returned record the conveyance figure is the coefficient
times the square root of the hydraulic radius of the same record. -/
theorem c8_cr05 (p : ChannelParameters) (r : ResultRecord) (ss : List Sample)
    (hok : compute_channel p = Except.ok (r, ss)) :
    r.cr05 = r.czt * Real.sqrt r.rgt := by
  obtain ⟨hv, hr, hss⟩ := compute_channel_ok_inv p r ss hok
  subst hr
  have hcr : (mkResult (runState p).1).cr05 =
      (runState p).1.czt *
        Real.sqrt (if (runState p).1.rgt > 0 then (runState p).1.rgt else 0) :=
    rfl
  rw [hcr, sqrt_clamp]
  rfl

/-- C8 witness at `pA`. -/
theorem c8_witness :
    (mkResult (runState pA).1).cr05 =
      (mkResult (runState pA).1).czt *
        Real.sqrt (mkResult (runState pA).1).rgt :=
  c8_cr05 pA (mkResult (runState pA).1) ((runState pA).2)
    (compute_channel_eq_ok pA (by norm_num [validParams, pA]))

/-- C9: replaying the emitted samples through the specification's selection
rule reproduces the returned record exactly. -/
theorem c9_replay (p : ChannelParameters) (r : ResultRecord) (ss : List Sample)
    (hok : compute_channel p = Except.ok (r, ss)) :
    specResult p.q p.sl p.mn p.nb p.h p.jcz ss = r := by
  obtain ⟨hv, hr, hss⟩ := compute_channel_ok_inv p r ss hok
  subst hr
  subst hss
  unfold specResult specSelect
  rw [runState_def,
    ← loop_best_eq_foldl p.q p.sl p.mn p.nb p.h p.jcz p.alh p.n p.b0 best0]
  unfold mkResult
  dsimp only
  rw [sqrt_clamp]

/-- C9 witness at `pA`. -/
theorem c9_witness :
    specResult pA.q pA.sl pA.mn pA.nb pA.h pA.jcz ((runState pA).2) =
      mkResult (runState pA).1 :=
  c9_replay pA (mkResult (runState pA).1) ((runState pA).2)
    (compute_channel_eq_ok pA (by norm_num [validParams, pA]))

/-- C1 counterexample: at `pC` (step size `-1`) the run returns best width
`0` even though the satisfying sample of largest width sits at width `1`:
with a negative step the retained last satisfying sample is not the largest
satisfying width. -/
theorem c1_counterexample :
    validParams pC ∧
    compute_channel pC =
      Except.ok (mkResult (runState pC).1, (runState pC).2) ∧
    ∃ s ∈ (runState pC).2, s.2 ≤ pC.q ∧
      ¬(s.1 ≤ (mkResult (runState pC).1).bt) := by
  have hv : validParams pC := by norm_num [validParams, pC]
  refine ⟨hv, compute_channel_eq_ok pC hv,
    ⟨((1 : ℝ), (0 : ℝ)), ?_, ?_, ?_⟩⟩
  · rw [runState_pC_snd]
    exact List.mem_cons_self _ _
  · norm_num [pC]
  · rw [mkResult_bt, runState_pC_bt]
    norm_num

/-- C1 (amended to a nonnegative step size): among the evaluated widths the
returned record carries the largest one whose discharge does not exceed the
target, together with the discharge, radius and coefficient evaluated at
that width. -/
theorem c1_largest_satisfying_width (p : ChannelParameters) (r : ResultRecord)
    (ss : List Sample) (hok : compute_channel p = Except.ok (r, ss))
    (halh : 0 ≤ p.alh) (hex : ∃ s ∈ ss, s.2 ≤ p.q) :
    (∀ s ∈ ss, s.2 ≤ p.q → s.1 ≤ r.bt) ∧
    (∃ s ∈ ss, s.2 ≤ p.q ∧ s.1 = r.bt) ∧
    r.qth = (evalStep p.sl p.mn p.nb p.h p.jcz r.bt).qt ∧
    r.rgt = (evalStep p.sl p.mn p.nb p.h p.jcz r.bt).rg ∧
    r.czt = (evalStep p.sl p.mn p.nb p.h p.jcz r.bt).cz := by
  obtain ⟨hv, hr, hss⟩ := compute_channel_ok_inv p r ss hok
  subst hr
  subst hss
  rw [runState_def] at hex ⊢
  simp only [mkResult_bt, mkResult_qth, mkResult_rgt, mkResult_czt]
  obtain ⟨⟨s2, hs2, hs2q, hs2bt, hqth, hrgt, hczt⟩, hbound⟩ :=
    loop_best_max p.q p.sl p.mn p.nb p.h p.jcz p.alh halh p.n p.b0 best0 hex
  refine ⟨hbound, ⟨s2, hs2, hs2q, hs2bt⟩, ?_, ?_, ?_⟩
  · rw [hqth,
      loop_samples_qt p.q p.sl p.mn p.nb p.h p.jcz p.alh p.n p.b0 best0 s2 hs2,
      hs2bt]
  · rw [hrgt, hs2bt]
  · rw [hczt, hs2bt]

/-- C1 witness at `pA`. -/
theorem c1_witness :
    (0 : ℝ) ≤ pA.alh ∧
    ∀ s ∈ (runState pA).2, s.2 ≤ pA.q →
      s.1 ≤ (mkResult (runState pA).1).bt := by
  refine ⟨by norm_num [pA], ?_⟩
  exact (c1_largest_satisfying_width pA (mkResult (runState pA).1)
    ((runState pA).2)
    (compute_channel_eq_ok pA (by norm_num [validParams, pA]))
    (by norm_num [pA])
    ⟨((1 : ℝ), (0 : ℝ)),
      by rw [runState_pA_snd]; exact List.mem_singleton_self _,
      by norm_num [pA]⟩).1

/-- C6: on validated parameters the fault-sensitive run never leaves the
domain of any partial floating-point operation: it succeeds and returns the
same record and trace as the total model. -/
theorem c6_no_domain_fault (p : ChannelParameters) (hv : validParams p) :
    compute_channel_safe p = Except.map some (compute_channel p) := by
  obtain ⟨h1, h2, h3, h4⟩ := hv
  unfold compute_channel_safe compute_channel
  rw [if_neg (not_le.mpr h1), if_neg (not_le.mpr h2), if_neg (not_lt.mpr h3),
    if_neg (not_not_intro h4), if_neg (not_le.mpr h1), if_neg (not_le.mpr h2),
    if_neg (not_lt.mpr h3), if_neg (not_not_intro h4)]
  rw [channelLoopSafe_eq p.q p.sl p.mn p.nb p.h p.jcz p.alh h1 p.n p.b0 best0,
    Option.some_bind, mkResultSafe_eq, Option.map_some']
  rfl

/-- C6 witness at `pS`. -/
theorem c6_witness :
    validParams pS ∧
    compute_channel_safe pS = Except.map some (compute_channel pS) := by
  have hv : validParams pS := by norm_num [validParams, pS]
  exact ⟨hv, c6_no_domain_fault pS hv⟩

end Duh1a

end
